import Mathlib

/-!
Verification development for the tileset package transformation engine
(`Tilesets.ts` and the operations it exposes: `combine`, `merge`, `upgrade`,
`upgradeTileset`, `determineTilesetJsonFileName`, `areEqualPackages`).

Strings are modelled through their character lists (`String.data`), and the
Node.js `path` functions (posix flavour) used by the source are modelled as
Lean functions over character lists.
-/

/-! ## Model of the Node.js posix `path` functions used by the source -/

/-- Predicate for characters other than the path separator. -/
def notSlash (c : Char) : Bool := c != '/'

/-- Everything after the last '/' of the list (the whole list when it has
no '/'). Operates on the reversed list with `takeWhile`. -/
def afterLastSlashL (l : List Char) : List Char :=
  (l.reverse.takeWhile notSlash).reverse

/-- Removes every trailing '/' of the list. -/
def dropTrailingSlashesL (l : List Char) : List Char :=
  (l.reverse.dropWhile (fun c => c == '/')).reverse

/-- Model of Node.js `path.posix.basename` (one-argument form): the last
non-empty path component, after stripping trailing separators; empty when
the path consists only of separators. -/
def basenameL (l : List Char) : List Char :=
  afterLastSlashL (dropTrailingSlashesL l)

/-- Model of Node.js `path.posix.dirname`: everything before the last
separator that is followed by a non-separator, with the special cases of
Node's implementation (no separator gives "." or "/", a root "//" is kept). -/
def dirnameL (l : List Char) : List Char :=
  if l.isEmpty then ['.']
  else
    let hasRoot := l.head? == some '/'
    let q := dropTrailingSlashesL l
    let pre := (q.reverse.dropWhile notSlash).reverse
    let r := pre.dropLast
    if r.isEmpty then (if hasRoot then ['/'] else ['.'])
    else if hasRoot && r == ['/'] then ['/', '/']
    else r

/-- Splits a character list at every '/'; always returns at least one
segment, and empty segments mark consecutive or outer separators. -/
def splitOnSlashL : List Char → List (List Char)
  | [] => [[]]
  | c :: t =>
    let r := splitOnSlashL t
    if c == '/' then [] :: r
    else
      match r with
      | [] => [[c]]
      | s :: rest => (c :: s) :: rest

/-- One step of Node's `normalizeString` segment processing: "." segments
are dropped, ".." pops the previous segment (or is kept at the front of a
relative path, or dropped at the root of an absolute one), and ordinary
segments are appended. -/
def normSegStep (isAbs : Bool) (acc : List (List Char)) (seg : List Char) :
    List (List Char) :=
  if seg == ['.'] then acc
  else if seg == ['.', '.'] then
    if !acc.isEmpty && acc.getLastD [] != ['.', '.'] then acc.dropLast
    else if isAbs then acc
    else acc ++ [seg]
  else acc ++ [seg]

/-- Model of Node.js `path.posix.normalize`: resolves "." and ".."
segments, collapses repeated separators, keeps one trailing separator and
the leading one, and maps the empty result to ".", "./" or "/". -/
def posixNormalizeL (l : List Char) : List Char :=
  if l.isEmpty then ['.']
  else
    let isAbs := l.head? == some '/'
    let trailing := l.getLast? == some '/'
    let segs := (splitOnSlashL l).filter (fun s => !s.isEmpty)
    let res := segs.foldl (normSegStep isAbs) []
    let joined := List.intercalate ['/'] res
    if joined.isEmpty then
      (if isAbs then ['/'] else if trailing then ['.', '/'] else ['.'])
    else
      let j := if trailing then joined ++ ['/'] else joined
      if isAbs then '/' :: j else j

/-- String wrapper for `basenameL`. -/
def posixBasename (s : String) : String := ⟨basenameL s.data⟩

/-- String wrapper for `dirnameL`. -/
def posixDirname (s : String) : String := ⟨dirnameL s.data⟩

/-- String wrapper for `posixNormalizeL`. -/
def posixNormalize (s : String) : String := ⟨posixNormalizeL s.data⟩

/-! ## String utilities of `Tilesets.ts` -/

/-- Model of the JavaScript test `name.toLowerCase().endsWith(".json")`:
the last five characters, lowercased, are 'n' 'o' 's' 'j' '.' seen from
the end. -/
def endsWithJsonL (l : List Char) : Bool :=
  match l.reverse with
  | c1 :: c2 :: c3 :: c4 :: c5 :: _ =>
    Char.toLower c1 == 'n' && Char.toLower c2 == 'o' && Char.toLower c3 == 's' &&
    Char.toLower c4 == 'j' && Char.toLower c5 == '.'
  | _ => false

/-- String wrapper for `endsWithJsonL`. -/
def endsWithJsonCI (s : String) : Bool := endsWithJsonL s.data

/-- Embedding of `Tilesets.determineTilesetJsonFileName`: the `basename`
of the name when it ends with ".json" case-insensitively, the literal
"tileset.json" otherwise. -/
def determineTilesetJsonFileName (tilesetDataName : String) : String :=
  if endsWithJsonCI tilesetDataName then posixBasename tilesetDataName
  else "tileset.json"

/-- Embedding of the per-argument block of `Tilesets.areEqualPackages`:
the name is normalized; when the normalized name ends with ".json"
case-insensitively it is replaced by `path.dirname` of the ORIGINAL
(un-normalized) argument, exactly as in the source. -/
def resolvePackageName (tilesetPackageName : String) : String :=
  let name := posixNormalize tilesetPackageName
  if endsWithJsonCI name then posixDirname tilesetPackageName else name

/-- Embedding of `Tilesets.areEqualPackages`: both names are resolved
independently and the results are compared for string equality. -/
def areEqualPackages (tilesetPackageName0 tilesetPackageName1 : String) : Bool :=
  resolvePackageName tilesetPackageName0 == resolvePackageName tilesetPackageName1

/-! ## Spec-side definitions for the string utility claims -/

/-- Final path segment of a name, read off the spec's words: the last
element of the name split at '/'. -/
def finalPathSegment (s : String) : String :=
  ⟨(splitOnSlashL s.data).getLastD []⟩

/-- Per-name resolution as claim C1 words it: the containing directory of
the NORMALIZED name is substituted (not of the original one). -/
def resolvePackageNameSpecC1 (p : String) : String :=
  let name := posixNormalize p
  if endsWithJsonCI name then posixDirname name else name

/-- Package comparison as claim C1 words it. -/
def areEqualPackagesSpecC1 (p0 p1 : String) : Bool :=
  resolvePackageNameSpecC1 p0 == resolvePackageNameSpecC1 p1

/-- Per-name resolution as the amended claim words it: when the normalized
name ends with ".json" case-insensitively, the containing directory of the
original (un-normalized) name is substituted. -/
def amendedResolvePackageName (p : String) : String :=
  if endsWithJsonCI (posixNormalize p) then posixDirname p
  else posixNormalize p

/-! ## Error taxonomy (spec section 7) -/

/-- Modelled from the spec: the typed error taxonomy of the operations
(the error classes live outside `src/`; only their names and roles are
specified). -/
inductive TilesetError where
  | malformedTileset
  | targetExists
  | danglingReference
  | cyclicReference
  | unsupportedDowngrade
  | tilesetError
deriving DecidableEq

/-! ## Tileset document model (spec section 3) -/

/-- Modelled from the spec: an axis-aligned box standing in for a tile's
bounding volume; `merge` needs a union with a containment order. -/
structure BoundingVolume where
  minX : Int
  minY : Int
  minZ : Int
  maxX : Int
  maxY : Int
  maxZ : Int
deriving DecidableEq

/-- Modelled from the spec: a content reference `{ uri, boundingVolume? }`. -/
structure ContentRef where
  uri : String
  boundingVolume : Option BoundingVolume := none
deriving DecidableEq

/-- Modelled from the spec: the document's `asset` metadata with its
schema version. -/
structure Asset where
  version : String
deriving DecidableEq

mutual
/-- Modelled from the spec: a tile of the tree, with bounding volume,
geometric error, refinement mode, the 1.0 `content` form, the 1.1
`contents` form and the child list. -/
inductive Tile where
  | mk (boundingVolume : BoundingVolume) (geometricError : Int)
      (refine : Option String) (content : Option ContentRef)
      (contents : Option (List ContentRef)) (children : TileList)
/-- Child list of a tile (a mutual inductive so that recursion and
induction over the tree stay elementary). -/
inductive TileList where
  | nil
  | cons (head : Tile) (tail : TileList)
end

/-- Bounding volume of a tile. -/
def Tile.boundingVolume : Tile → BoundingVolume
  | .mk bv _ _ _ _ _ => bv

/-- Geometric error of a tile. -/
def Tile.geometricError : Tile → Int
  | .mk _ ge _ _ _ _ => ge

/-- Refinement mode of a tile. -/
def Tile.refineMode : Tile → Option String
  | .mk _ _ rf _ _ _ => rf

/-- Singular (1.0 form) content of a tile. -/
def Tile.content : Tile → Option ContentRef
  | .mk _ _ _ c _ _ => c

/-- Contents array (1.1 form) of a tile. -/
def Tile.contents : Tile → Option (List ContentRef)
  | .mk _ _ _ _ cs _ => cs

/-- Children of a tile. -/
def Tile.children : Tile → TileList
  | .mk _ _ _ _ _ ch => ch

/-- Plain list of a child list. -/
def TileList.toList : TileList → List Tile
  | .nil => []
  | .cons t ts => t :: ts.toList

/-- Child list built from a plain list. -/
def TileList.ofList : List Tile → TileList
  | [] => .nil
  | t :: ts => .cons t (TileList.ofList ts)

/-- Number of tiles in a child list. -/
def TileList.length (ts : TileList) : Nat := ts.toList.length

mutual
/-- Every tile of a subtree, in depth-first order. -/
def allTilesT : Tile → List Tile
  | .mk bv ge rf c cs ch => .mk bv ge rf c cs ch :: allTilesL ch
/-- Every tile reachable from a child list, in depth-first order. -/
def allTilesL : TileList → List Tile
  | .nil => []
  | .cons t ts => allTilesT t ++ allTilesL ts
end

/-- Modelled from the spec: a tileset document `{ asset, geometricError,
root }`. -/
structure Tileset where
  asset : Asset
  geometricError : Int
  root : Tile

/-! ## Tileset upgrader, JSON-level rewrites (spec section 4.4) -/

/-- Uppercases every character of a string (`refine` casing
normalization of the 1.0 to 1.1 rewrite). -/
def upperStr (s : String) : String := ⟨s.data.map Char.toUpper⟩

mutual
/-- Modelled from the spec: the 1.0 to 1.1 rewrite of one tile — the
singular `content` is promoted to a one-element `contents` array and the
`refine` casing is normalized. -/
def promoteTile : Tile → Tile
  | .mk bv ge rf c cs ch =>
    match c with
    | some cc => .mk bv ge (rf.map upperStr) none (some [cc]) (promoteTiles ch)
    | none => .mk bv ge (rf.map upperStr) none cs (promoteTiles ch)
/-- The 1.0 to 1.1 rewrite of a child list. -/
def promoteTiles : TileList → TileList
  | .nil => .nil
  | .cons t ts => .cons (promoteTile t) (promoteTiles ts)
end

mutual
/-- Modelled from the spec: the 1.1 to 1.0 rewrite of one tile — the
structural inverse of `promoteTile`; a tile carrying more than one
`contents` entry signals `UnsupportedDowngradeError` instead of dropping
entries. -/
def downgradeTile : Tile → Except TilesetError Tile
  | .mk bv ge rf c cs ch =>
    match cs with
    | some (_ :: _ :: _) => .error .unsupportedDowngrade
    | _ =>
      match downgradeTiles ch with
      | .error e => .error e
      | .ok ch' =>
        let newContent : Option ContentRef :=
          match cs with
          | some [x] => some x
          | _ => c
        .ok (.mk bv ge rf newContent none ch')
/-- The 1.1 to 1.0 rewrite of a child list. -/
def downgradeTiles : TileList → Except TilesetError TileList
  | .nil => .ok .nil
  | .cons t ts =>
    match downgradeTile t with
    | .error e => .error e
    | .ok t' =>
      match downgradeTiles ts with
      | .error e => .error e
      | .ok ts' => .ok (.cons t' ts')
end

/-- The 1.0 to 1.1 rewrite of a whole document. -/
def promoteTileset (t : Tileset) : Tileset :=
  ⟨⟨"1.1"⟩, t.geometricError, promoteTile t.root⟩

/-- The 1.1 to 1.0 rewrite of a whole document. -/
def downgradeTileset (t : Tileset) : Except TilesetError Tileset :=
  match downgradeTile t.root with
  | .error e => .error e
  | .ok r => .ok ⟨⟨"1.0"⟩, t.geometricError, r⟩

/-- Modelled from the spec: the version state machine of the upgrader's
JSON-level rewrite — the only transitions are "1.0" to "1.1" and "1.1" to
"1.0"; upgrading to the current version is a no-op; unknown versions are
rejected with a typed error. -/
def upgradeTilesetJson (targetVersion : String) (t : Tileset) :
    Except TilesetError Tileset :=
  if t.asset.version = "1.0" then
    if targetVersion = "1.0" then .ok t
    else if targetVersion = "1.1" then .ok (promoteTileset t)
    else .error .malformedTileset
  else if t.asset.version = "1.1" then
    if targetVersion = "1.1" then .ok t
    else if targetVersion = "1.0" then downgradeTileset t
    else .error .malformedTileset
  else .error .malformedTileset

/-! ## Equivalence and validity of documents (claims C6 and C7) -/

/-- The content references a tile declares, in either form. -/
def contentRefsOfParts (c : Option ContentRef) (cs : Option (List ContentRef)) :
    List ContentRef :=
  (match c with | some x => [x] | none => []) ++ cs.getD []

mutual
/-- Equivalence of tiles in the sense of claim C7: same bounding volume,
geometric error, refinement mode and declared content references
(regardless of the `content` / `contents` form), with equivalent children. -/
def tileEquiv : Tile → Tile → Bool
  | .mk bv1 ge1 rf1 c1 cs1 ch1, .mk bv2 ge2 rf2 c2 cs2 ch2 =>
    decide (bv1 = bv2) && decide (ge1 = ge2) && decide (rf1 = rf2) &&
    decide (contentRefsOfParts c1 cs1 = contentRefsOfParts c2 cs2) &&
    tileListEquiv ch1 ch2
/-- Pointwise equivalence of child lists. -/
def tileListEquiv : TileList → TileList → Bool
  | .nil, .nil => true
  | .cons a as, .cons b bs => tileEquiv a b && tileListEquiv as bs
  | .nil, .cons _ _ => false
  | .cons _ _, .nil => false
end

/-- Equivalence of documents in the sense of claim C7 (the
`asset.version` field is not compared). -/
def tilesetEquiv (t1 t2 : Tileset) : Bool :=
  decide (t1.geometricError = t2.geometricError) && tileEquiv t1.root t2.root

mutual
/-- Validity of a tile at version 1.1 with the hypothesis of claim C7:
the refinement mode is absent or one of the schema's normalized "ADD" /
"REPLACE", the tile declares at most one of the `content` / `contents`
forms, and the `contents` array has at most one entry. -/
def validTile11 : Tile → Bool
  | .mk _ _ rf c cs ch =>
    (rf == none || rf == some "ADD" || rf == some "REPLACE") &&
    !(c.isSome && cs.isSome) &&
    decide ((cs.getD []).length ≤ 1) &&
    validTiles11 ch
/-- Validity of every tile of a child list. -/
def validTiles11 : TileList → Bool
  | .nil => true
  | .cons t ts => validTile11 t && validTiles11 ts
end

/-! ## Package store model (spec sections 2 and 6) -/

/-- Modelled from the spec: one entry of a package store — either a
nested tileset JSON document or an opaque renderable blob (identified by
an abstract payload). -/
inductive Entry where
  | tilesetEntry (t : Tileset)
  | blob (data : Nat)

/-- Modelled from the spec: a package is a keyed entry store. -/
def Package := List (String × Entry)

/-- Modelled from the spec: the outside world of named packages that the
operations open, create and overwrite. -/
def FS := List (String × Package)

/-- Looks a package up by name. -/
def fsLookup (fs : FS) (name : String) : Option Package :=
  List.lookup name fs

/-- Writes (creates or overwrites) a package under a name. -/
def fsInsert (fs : FS) (name : String) (pkg : Package) : FS :=
  (name, pkg) :: fs.filter (fun kv => kv.1 != name)

/-- Looks an entry up by key. -/
def pkgLookup (p : Package) (k : String) : Option Entry :=
  List.lookup k p

/-- The content classifier of `Tilesets.combine`: the entry is an
external tileset (the source builds it as the included-content check for
`ContentDataTypes.CONTENT_TYPE_TILESET`). -/
def isTilesetEntry : Entry → Bool
  | .tilesetEntry _ => true
  | .blob _ => false

/-! ## Tileset combiner (spec section 4.2) -/

mutual
/-- Modelled from the spec: the combine walk over one tile — content
references classified as external tilesets are fetched, recursively
combined and spliced in as a wrapper child tile; other references are
kept; unresolvable references are dangling; the fuel bounds the nested
descent and its exhaustion signals a reference cycle. -/
def combineTile (det : Entry → Bool) : Nat → Package → Tile →
    Except TilesetError Tile
  | 0, _, _ => .error .cyclicReference
  | Nat.succ fuel, pkg, .mk bv ge rf c cs ch =>
    match combineTiles det fuel pkg ch with
    | .error e => .error e
    | .ok ch' =>
      match c with
      | none => .ok (.mk bv ge rf none cs ch')
      | some cref =>
        match pkgLookup pkg cref.uri with
        | none => .error .danglingReference
        | some entry =>
          if det entry then
            match entry with
            | .tilesetEntry nested =>
              match combineTile det fuel pkg nested.root with
              | .error e => .error e
              | .ok nestedRoot =>
                .ok (.mk bv ge rf none cs (.cons nestedRoot ch'))
            | .blob _ => .error .malformedTileset
          else .ok (.mk bv ge rf (some cref) cs ch')
/-- The combine walk over a child list. -/
def combineTiles (det : Entry → Bool) : Nat → Package → TileList →
    Except TilesetError TileList
  | 0, _, _ => .error .cyclicReference
  | Nat.succ _, _, .nil => .ok .nil
  | Nat.succ fuel, pkg, .cons t ts =>
    match combineTile det fuel pkg t with
    | .error e => .error e
    | .ok t' =>
      match combineTiles det fuel pkg ts with
      | .error e => .error e
      | .ok ts' => .ok (.cons t' ts')
end

mutual
/-- Number of tiles of a subtree. -/
def tileCountT : Tile → Nat
  | .mk _ _ _ _ _ ch => 1 + tileCountL ch
/-- Number of tiles reachable from a child list. -/
def tileCountL : TileList → Nat
  | .nil => 0
  | .cons t ts => tileCountT t + tileCountL ts
end

/-- Modelled from the spec: the document-and-content part of `combine` —
the root document of the source package is flattened and written together
with every non-tileset entry. -/
def combineTransform (det : Entry → Bool) (srcName : String) (pkg : Package) :
    Except TilesetError Package :=
  match pkgLookup pkg (determineTilesetJsonFileName srcName) with
  | some (.tilesetEntry t) =>
    match combineTile det ((pkg.length + 1) * (tileCountT t.root + 1)) pkg t.root with
    | .error e => .error e
    | .ok root' =>
      .ok ((pkg.filter (fun kv => !(isTilesetEntry kv.2))) ++
        [("tileset.json", .tilesetEntry ⟨t.asset, t.geometricError, root'⟩)])
  | _ => .error .malformedTileset

/-- Modelled from the spec: the combiner holds the externally supplied
content classifier. -/
structure TilesetCombiner where
  externalTilesetDetector : Entry → Bool

/-- Modelled from the spec: `TilesetCombiner.combine` — the source is
opened (a typed error when absent), the target is guarded by the
overwrite flag, and only then is the combined package written; every
failure leaves the store unchanged. -/
def TilesetCombiner.combine (tc : TilesetCombiner) (fs : FS)
    (tilesetSourceName tilesetTargetName : String) (overwrite : Bool) :
    Except TilesetError Unit × FS :=
  match fsLookup fs tilesetSourceName with
  | none => (.error .tilesetError, fs)
  | some pkg =>
    if (fsLookup fs tilesetTargetName).isSome && !overwrite then
      (.error .targetExists, fs)
    else
      match combineTransform tc.externalTilesetDetector tilesetSourceName pkg with
      | .error e => (.error e, fs)
      | .ok out => (.ok (), fsInsert fs tilesetTargetName out)

/-! ## Tileset merger (spec section 4.3) -/

/-- Componentwise union of two bounding boxes. -/
def unionBV (a b : BoundingVolume) : BoundingVolume :=
  ⟨min a.minX b.minX, min a.minY b.minY, min a.minZ b.minZ,
   max a.maxX b.maxX, max a.maxY b.maxY, max a.maxZ b.maxZ⟩

/-- Containment order on bounding boxes: `a` contains `b`. -/
def containsBV (a b : BoundingVolume) : Prop :=
  a.minX ≤ b.minX ∧ a.minY ≤ b.minY ∧ a.minZ ≤ b.minZ ∧
  b.maxX ≤ a.maxX ∧ b.maxY ≤ a.maxY ∧ b.maxZ ≤ a.maxZ

instance (a b : BoundingVolume) : Decidable (containsBV a b) := by
  unfold containsBV
  exact inferInstance

/-- Union of a first box with a list of further boxes. -/
def unionAllBV : BoundingVolume → List BoundingVolume → BoundingVolume
  | acc, [] => acc
  | acc, b :: bs => unionAllBV (unionBV acc b) bs

/-- Maximum of a first value and a list of further values. -/
def maxAll : Int → List Int → Int
  | acc, [] => acc
  | acc, x :: xs => maxAll (max acc x) xs

/-- Prepends a namespace to a content reference's uri. -/
def prefixContentRef (pre : String) (c : ContentRef) : ContentRef :=
  { c with uri := pre ++ c.uri }

mutual
/-- Re-keys every content reference of a subtree into a per-source
namespace. -/
def prefixTile (pre : String) : Tile → Tile
  | .mk bv ge rf c cs ch =>
    .mk bv ge rf (c.map (prefixContentRef pre))
      (cs.map (fun l => l.map (prefixContentRef pre))) (prefixTiles pre ch)
/-- Re-keys a child list. -/
def prefixTiles (pre : String) : TileList → TileList
  | .nil => .nil
  | .cons t ts => .cons (prefixTile pre t) (prefixTiles pre ts)
end

/-- Namespace of the i-th merge source. -/
def mergePrefix (i : Nat) : String := "tileset_" ++ toString i ++ "/"

/-- The children of the synthetic merge root: one re-keyed source root
per source, in source-list order. -/
def mergeRootChildren (docs : List Tileset) : List Tile :=
  docs.enum.map (fun p => prefixTile (mergePrefix p.1) p.2.root)

/-- Modelled from the spec: the document part of `merge` — a synthetic
root whose bounding volume is the union of the source roots' bounding
volumes, whose geometric error is their maximum, whose refinement mode is
"ADD", and whose children are the N re-keyed source roots; at least one
source is required. -/
def mergeDocuments : List Tileset → Except TilesetError Tileset
  | [] => .error .tilesetError
  | d :: ds =>
    .ok
      { asset := ⟨d.asset.version⟩
        geometricError := maxAll d.geometricError (ds.map Tileset.geometricError)
        root := .mk
          (unionAllBV d.root.boundingVolume
            (ds.map (fun x => x.root.boundingVolume)))
          (maxAll d.root.geometricError (ds.map (fun x => x.root.geometricError)))
          (some "ADD") none none
          (TileList.ofList (mergeRootChildren (d :: ds))) }

/-- Modelled from the spec: the package part of `merge` — the merged
document plus the namespaced union of every source's non-tileset
entries. -/
def mergeTransform (fs : FS) (srcNames : List String) :
    Except TilesetError Package :=
  match srcNames.mapM (fsLookup fs) with
  | none => .error .tilesetError
  | some pkgs =>
    match (srcNames.zip pkgs).mapM
        (fun np =>
          match pkgLookup np.2 (determineTilesetJsonFileName np.1) with
          | some (.tilesetEntry t) => some t
          | _ => none) with
    | none => .error .malformedTileset
    | some docs =>
      match mergeDocuments docs with
      | .error e => .error e
      | .ok m =>
        .ok ((pkgs.enum.map (fun ip =>
            (ip.2.filter (fun kv => !(isTilesetEntry kv.2))).map
              (fun kv => (mergePrefix ip.1 ++ kv.1, kv.2)))).flatten ++
          [("tileset.json", .tilesetEntry m)])

/-- Modelled from the spec: `TilesetMerger.merge` — every source is
opened first, the target is guarded by the overwrite flag, and only then
is the merged package written; every failure leaves the store unchanged. -/
def TilesetMerger.merge (fs : FS) (tilesetSourceNames : List String)
    (tilesetTargetName : String) (overwrite : Bool) :
    Except TilesetError Unit × FS :=
  match tilesetSourceNames.mapM (fsLookup fs) with
  | none => (.error .tilesetError, fs)
  | some _ =>
    if (fsLookup fs tilesetTargetName).isSome && !overwrite then
      (.error .targetExists, fs)
    else
      match mergeTransform fs tilesetSourceNames with
      | .error e => (.error e, fs)
      | .ok out => (.ok (), fsInsert fs tilesetTargetName out)

/-! ## Tileset upgrader over stores (spec section 4.4) -/

/-- Modelled from the spec: the configuration forwarded opaquely to the
content-upgrade callback; the callback's action on a blob payload is its
only observable behaviour here. -/
structure GltfUpgradeOptions where
  applyToBlob : Nat → Nat

/-- Modelled from the spec: an observable effect of the store-level
upgrade pipeline — a package read, a package write, or one application of
the content-upgrade callback. -/
inductive UpgradeEffect where
  | packageRead (key : String)
  | packageWrite (key : String)
  | contentUpgradeCall (key : String)
deriving DecidableEq

/-- Modelled from the spec: the upgrader holds the target version and the
optional content-upgrade configuration, as the source constructs it. -/
structure TilesetUpgrader where
  targetVersion : String
  gltfUpgradeOptions : Option GltfUpgradeOptions

/-- Applies the optional content-upgrade callback to one entry, recording
the callback applications. -/
def upgradeEntry (u : TilesetUpgrader) (kv : String × Entry) :
    (String × Entry) × List UpgradeEffect :=
  match kv.2, u.gltfUpgradeOptions with
  | .blob d, some opts =>
    ((kv.1, .blob (opts.applyToBlob d)), [.contentUpgradeCall kv.1])
  | e, _ => ((kv.1, e), [])

/-- Modelled from the spec: `TilesetUpgrader.upgrade` — the store-level
pipeline: open the source, guard the target, rewrite the root document's
JSON, pass each blob entry through the optional content-upgrade callback
and write the target, with every package read, package write and callback
application recorded as an effect. -/
def TilesetUpgrader.upgrade (u : TilesetUpgrader) (fs : FS)
    (tilesetSourceName tilesetTargetName : String) (overwrite : Bool) :
    (Except TilesetError Unit × FS) × List UpgradeEffect :=
  match fsLookup fs tilesetSourceName with
  | none => ((.error .tilesetError, fs), [])
  | some pkg =>
    if (fsLookup fs tilesetTargetName).isSome && !overwrite then
      ((.error .targetExists, fs), [])
    else
      let key := determineTilesetJsonFileName tilesetSourceName
      match pkgLookup pkg key with
      | some (.tilesetEntry t) =>
        match upgradeTilesetJson u.targetVersion t with
        | .error e => ((.error e, fs), [.packageRead key])
        | .ok t' =>
          let blobs := pkg.filter (fun kv => !(isTilesetEntry kv.2))
          let upgraded := blobs.map (upgradeEntry u)
          let outPkg := (upgraded.map (fun x => x.1)) ++ [(key, .tilesetEntry t')]
          (((.ok (), fsInsert fs tilesetTargetName outPkg)),
            .packageRead key :: (blobs.map (fun kv => UpgradeEffect.packageRead kv.1)) ++
              (upgraded.map (fun x => x.2)).flatten ++
              (outPkg.map (fun kv => UpgradeEffect.packageWrite kv.1)))
      | _ => ((.error .malformedTileset, fs), [.packageRead key])

/-- Modelled from the spec: `TilesetUpgrader.upgradeTileset` — the
in-memory variant performs only the JSON-level structural rewrite: no
package is read or written and the content-upgrade callback is never
applied, so its effect trace is empty. -/
def TilesetUpgrader.upgradeTileset (u : TilesetUpgrader) (tileset : Tileset) :
    Except TilesetError Tileset × List UpgradeEffect :=
  (upgradeTilesetJson u.targetVersion tileset, [])

/-! ## The `Tilesets` facade (the source file itself) -/

/-- Embedding of `Tilesets.combine`: builds the external-tileset
classifier, constructs a `TilesetCombiner` with it and delegates. -/
def Tilesets.combine (fs : FS) (tilesetSourceName tilesetTargetName : String)
    (overwrite : Bool) : Except TilesetError Unit × FS :=
  let externalTilesetDetector := isTilesetEntry
  let tilesetCombiner : TilesetCombiner := ⟨externalTilesetDetector⟩
  tilesetCombiner.combine fs tilesetSourceName tilesetTargetName overwrite

/-- Embedding of `Tilesets.merge`: constructs a `TilesetMerger` and
delegates. -/
def Tilesets.merge (fs : FS) (tilesetSourceNames : List String)
    (tilesetTargetName : String) (overwrite : Bool) :
    Except TilesetError Unit × FS :=
  TilesetMerger.merge fs tilesetSourceNames tilesetTargetName overwrite

/-- Embedding of `Tilesets.upgrade`: constructs a `TilesetUpgrader` from
the target version and the forwarded options and delegates. -/
def Tilesets.upgrade (fs : FS) (tilesetSourceName tilesetTargetName : String)
    (overwrite : Bool) (targetVersion : String)
    (gltfUpgradeOptions : Option GltfUpgradeOptions) :
    (Except TilesetError Unit × FS) × List UpgradeEffect :=
  let tilesetUpgrader : TilesetUpgrader := ⟨targetVersion, gltfUpgradeOptions⟩
  tilesetUpgrader.upgrade fs tilesetSourceName tilesetTargetName overwrite

/-- Embedding of `Tilesets.upgradeTileset`: the options are always absent
(`undefined` in the source) and the in-memory upgrade is invoked on the
given document. -/
def Tilesets.upgradeTileset (tileset : Tileset) (targetVersion : String) :
    Except TilesetError Tileset × List UpgradeEffect :=
  let gltfUpgradeOptions : Option GltfUpgradeOptions := none
  let tilesetUpgrader : TilesetUpgrader := ⟨targetVersion, gltfUpgradeOptions⟩
  tilesetUpgrader.upgradeTileset tileset

/-! ## Sample data for concrete witnesses -/

/-- A sample content reference. -/
def sampleContent : ContentRef := ⟨"content.b3dm", none⟩

/-- A sample leaf tile, valid at 1.1, with one `contents` entry. -/
def sampleLeaf : Tile :=
  .mk ⟨0, 0, 0, 1, 1, 1⟩ 4 (some "ADD") none (some [sampleContent]) .nil

/-- A sample document valid at version 1.1. -/
def sampleTileset11 : Tileset :=
  ⟨⟨"1.1"⟩, 16, .mk ⟨0, 0, 0, 2, 2, 2⟩ 8 (some "REPLACE") none none
    (.cons sampleLeaf .nil)⟩

/-- A sample 1.1 document with a tile carrying two `contents` entries. -/
def sampleTilesetMulti : Tileset :=
  ⟨⟨"1.1"⟩, 16, .mk ⟨0, 0, 0, 2, 2, 2⟩ 8 none none none
    (.cons (.mk ⟨0, 0, 0, 1, 1, 1⟩ 4 none none
      (some [⟨"a.b3dm", none⟩, ⟨"b.b3dm", none⟩]) .nil) .nil)⟩

/-- A second sample document for merge witnesses. -/
def sampleTileset11b : Tileset :=
  ⟨⟨"1.1"⟩, 32, .mk ⟨-1, -1, -1, 0, 0, 0⟩ 6 none none none .nil⟩

/-- A sample store holding one (empty) package under the name "existing". -/
def sampleFS : FS := [("existing", ([] : Package))]

/-! ## Helper lemmas on characters and path components -/

/-- A character whose lowercase form is not '/' is itself not '/'. -/
theorem notSlash_of_toLower {c x : Char} (hx : Char.toLower c = x)
    (hx2 : x ≠ '/') : notSlash c = true := by
  apply bne_iff_ne.mpr
  intro he
  apply hx2
  rw [← hx, he]
  decide

/-- Shape of a character list that ends with ".json" case-insensitively:
its reverse starts with the five lowercase-classified characters of the
extension. -/
theorem endsWithJsonL_shape {l : List Char} (h : endsWithJsonL l = true) :
    ∃ c1 c2 c3 c4 c5 r, l.reverse = c1 :: c2 :: c3 :: c4 :: c5 :: r ∧
      Char.toLower c1 = 'n' ∧ Char.toLower c2 = 'o' ∧ Char.toLower c3 = 's' ∧
      Char.toLower c4 = 'j' ∧ Char.toLower c5 = '.' := by
  unfold endsWithJsonL at h
  split at h
  · rename_i c1 c2 c3 c4 c5 r heq
    rw [Bool.and_eq_true, Bool.and_eq_true, Bool.and_eq_true, Bool.and_eq_true] at h
    exact ⟨c1, c2, c3, c4, c5, r, heq, beq_iff_eq.mp h.1.1.1.1,
      beq_iff_eq.mp h.1.1.1.2, beq_iff_eq.mp h.1.1.2, beq_iff_eq.mp h.1.2,
      beq_iff_eq.mp h.2⟩
  · exact absurd h (by simp)

/-- On a name that ends with ".json" case-insensitively, `basename` does
not strip anything: there is no trailing separator. -/
theorem basenameL_of_endsJson {l : List Char} (h : endsWithJsonL l = true) :
    basenameL l = afterLastSlashL l := by
  obtain ⟨c1, c2, c3, c4, c5, r, hrev, h1, _, _, _, _⟩ := endsWithJsonL_shape h
  have hc1 : (c1 == '/') = false := by
    refine beq_eq_false_iff_ne.mpr ?_
    intro he
    rw [he] at h1
    exact absurd h1 (by decide)
  unfold basenameL dropTrailingSlashesL
  rw [hrev, List.dropWhile_cons, hc1]
  simp only [Bool.false_eq_true, if_false]
  rw [← hrev, List.reverse_reverse]

/-- The part of a name after its last separator keeps the ".json"
ending. -/
theorem endsWithJsonL_afterLastSlash {l : List Char}
    (h : endsWithJsonL l = true) :
    endsWithJsonL (afterLastSlashL l) = true := by
  obtain ⟨c1, c2, c3, c4, c5, r, hrev, h1, h2, h3, h4, h5⟩ := endsWithJsonL_shape h
  have n1 : notSlash c1 = true := notSlash_of_toLower h1 (by decide)
  have n2 : notSlash c2 = true := notSlash_of_toLower h2 (by decide)
  have n3 : notSlash c3 = true := notSlash_of_toLower h3 (by decide)
  have n4 : notSlash c4 = true := notSlash_of_toLower h4 (by decide)
  have n5 : notSlash c5 = true := notSlash_of_toLower h5 (by decide)
  unfold afterLastSlashL
  rw [hrev]
  simp only [List.takeWhile_cons, n1, n2, n3, n4, n5, if_true]
  unfold endsWithJsonL
  rw [List.reverse_reverse]
  simp [h1, h2, h3, h4, h5]

/-! ## Claim theorems for the string utilities (C1, C3, C10) -/

/-- C1 counterexample: at the names "a//b.json" and "a", the procedure
the claim describes (substituting the containing directory of the
NORMALIZED name) answers true, while `areEqualPackages` as implemented
(substituting the containing directory of the original name, here "a/")
answers false. -/
theorem areEqualPackages_claim_counterexample :
    areEqualPackagesSpecC1 "a//b.json" "a" = true ∧
    areEqualPackages "a//b.json" "a" = false := by
  decide

/-- C1 (amended): `areEqualPackages` normalizes both names; when a
normalized name ends in ".json" case-insensitively it substitutes the
containing directory of the ORIGINAL (un-normalized) name; it returns
true exactly when the two resulting values are identical strings. -/
theorem areEqualPackages_amended (p0 p1 : String) :
    areEqualPackages p0 p1 = true ↔
      amendedResolvePackageName p0 = amendedResolvePackageName p1 := by
  unfold areEqualPackages resolvePackageName amendedResolvePackageName
  exact beq_iff_eq

/-- C3: `areEqualPackages "a/b/tileset.json" "a/b"` is true and
`areEqualPackages "a/b" "a/c"` is false. -/
theorem areEqualPackages_examples :
    areEqualPackages "a/b/tileset.json" "a/b" = true ∧
    areEqualPackages "a/b" "a/c" = false := by
  decide

/-- C10: `areEqualPackages` is symmetric, since each argument is resolved
independently before the final comparison. -/
theorem areEqualPackages_symm (a b : String) :
    areEqualPackages a b = areEqualPackages b a := by
  unfold areEqualPackages
  apply Bool.eq_iff_iff.mpr
  simp only [beq_iff_eq]
  exact eq_comm

/-! ## Helper lemmas relating `basename` to the final path segment -/

/-- Splitting never yields an empty segment list. -/
theorem splitOnSlashL_exists (l : List Char) :
    ∃ s rest, splitOnSlashL l = s :: rest := by
  induction l with
  | nil => exact ⟨[], [], rfl⟩
  | cons c t ih =>
    obtain ⟨s, rest, hs⟩ := ih
    cases hc : (c == '/') with
    | true => exact ⟨[], splitOnSlashL t, by simp [splitOnSlashL, hc]⟩
    | false => exact ⟨c :: s, rest, by simp [splitOnSlashL, hc, hs]⟩

/-- A list without separators is a single segment. -/
theorem splitOnSlashL_no_slash {l : List Char} (h : '/' ∉ l) :
    splitOnSlashL l = [l] := by
  induction l with
  | nil => rfl
  | cons c t ih =>
    have hc : (c == '/') = false := by
      refine beq_eq_false_iff_ne.mpr (fun he => h ?_)
      rw [← he]
      exact List.mem_cons_self c t
    have ht : '/' ∉ t := fun m => h (List.mem_cons_of_mem _ m)
    simp [splitOnSlashL, hc, ih ht]

/-- A list containing a separator splits into at least two segments. -/
theorem splitOnSlashL_two_le {l : List Char} (h : '/' ∈ l) :
    2 ≤ (splitOnSlashL l).length := by
  induction l with
  | nil => simp at h
  | cons c t ih =>
    cases hc : (c == '/') with
    | true =>
      obtain ⟨s, rest, hs⟩ := splitOnSlashL_exists t
      have hsplit : splitOnSlashL (c :: t) = [] :: splitOnSlashL t := by
        simp [splitOnSlashL, hc]
      rw [hsplit, hs]
      simp only [List.length_cons]
      omega
    | false =>
      have hc' : c ≠ '/' := by
        intro he
        rw [he] at hc
        simp at hc
      have ht : '/' ∈ t := by
        rcases List.mem_cons.mp h with he | hm
        · exact absurd he.symm hc'
        · exact hm
      obtain ⟨s, rest, hs⟩ := splitOnSlashL_exists t
      have hsplit : splitOnSlashL (c :: t) = (c :: s) :: rest := by
        simp [splitOnSlashL, hc, hs]
      have h2 := ih ht
      rw [hs] at h2
      rw [hsplit]
      simp only [List.length_cons] at h2 ⊢
      omega

/-- The `takeWhile` of `notSlash` keeps the whole length exactly when the
list has no separator. -/
theorem takeWhile_notSlash_len (r : List Char) :
    ((r.takeWhile notSlash).length = r.length) ↔ ∀ x ∈ r, notSlash x = true := by
  induction r with
  | nil => simp
  | cons a t ih =>
    cases ha : notSlash a with
    | false =>
      simp only [List.takeWhile_cons, ha, Bool.false_eq_true, if_false,
        List.length_nil, List.length_cons, List.forall_mem_cons, false_and]
      constructor
      · intro h0
        omega
      · intro hall
        exact hall.elim
    | true =>
      simp only [List.takeWhile_cons, ha, if_true, List.length_cons,
        List.forall_mem_cons, true_and]
      constructor
      · intro hl
        exact ih.mp (by omega)
      · intro hall
        have := ih.mpr hall
        omega

/-- The last segment of the split equals the part after the last
separator. -/
theorem getLastD_splitOnSlash (l : List Char) :
    (splitOnSlashL l).getLastD [] = afterLastSlashL l := by
  induction l with
  | nil => rfl
  | cons c t ih =>
    unfold afterLastSlashL
    rw [List.reverse_cons, List.takeWhile_append]
    by_cases hmem : '/' ∈ t
    · have hcond : ¬((t.reverse.takeWhile notSlash).length = t.reverse.length) := by
        rw [takeWhile_notSlash_len]
        intro hall
        have := hall '/' (List.mem_reverse.mpr hmem)
        exact absurd this (by decide)
      rw [if_neg hcond]
      cases hc : (c == '/') with
      | true =>
        rw [show splitOnSlashL (c :: t) = [] :: splitOnSlashL t by
          simp [splitOnSlashL, hc]]
        rw [List.getLastD_cons]
        exact ih
      | false =>
        obtain ⟨s, rest, hs⟩ := splitOnSlashL_exists t
        have hlen := splitOnSlashL_two_le hmem
        rw [hs] at hlen
        rcases rest with _ | ⟨r2, rest2⟩
        · simp at hlen
        · rw [show splitOnSlashL (c :: t) = (c :: s) :: r2 :: rest2 by
            simp [splitOnSlashL, hc, hs]]
          have ih' := ih
          rw [hs, List.getLastD_cons, List.getLastD_cons] at ih'
          rw [List.getLastD_cons, List.getLastD_cons]
          exact ih'
    · have hcond : (t.reverse.takeWhile notSlash).length = t.reverse.length := by
        rw [takeWhile_notSlash_len]
        intro x hx
        refine bne_iff_ne.mpr (fun he => hmem ?_)
        rw [← he]
        exact List.mem_reverse.mp hx
      rw [if_pos hcond]
      have hsp := splitOnSlashL_no_slash hmem
      cases hc : (c == '/') with
      | true =>
        have hceq : c = '/' := beq_iff_eq.mp hc
        rw [show splitOnSlashL (c :: t) = [] :: splitOnSlashL t by
          simp [splitOnSlashL, hc]]
        rw [hsp, List.getLastD_cons, List.getLastD_cons, List.getLastD_nil]
        rw [hceq]
        rw [show List.takeWhile notSlash ['/'] = [] from rfl]
        rw [List.append_nil, List.reverse_reverse]
      | false =>
        have hnc : notSlash c = true := bne_iff_ne.mpr (beq_eq_false_iff_ne.mp hc)
        rw [show splitOnSlashL (c :: t) = [c :: t] by simp [splitOnSlashL, hc, hsp]]
        rw [List.getLastD_cons, List.getLastD_nil]
        rw [show List.takeWhile notSlash [c] = [c] by
          simp [List.takeWhile_cons, hnc]]
        simp [List.reverse_append]

/-! ## Claim theorems for `determineTilesetJsonFileName` (C2, C9) -/

/-- C2: `determineTilesetJsonFileName` returns the final path segment of
its input when the input ends in ".json" case-insensitively, and the
fixed literal "tileset.json" for every other input. -/
theorem determineTilesetJsonFileName_spec (s : String) :
    determineTilesetJsonFileName s =
      if endsWithJsonCI s then finalPathSegment s else "tileset.json" := by
  unfold determineTilesetJsonFileName
  cases h : endsWithJsonCI s with
  | false => rfl
  | true =>
    simp only [if_true]
    unfold posixBasename finalPathSegment
    have h' : endsWithJsonL s.data = true := h
    rw [basenameL_of_endsJson h', ← getLastD_splitOnSlash]

/-- C9: for every input, `determineTilesetJsonFileName` returns a value
that itself ends in ".json" case-insensitively — either the preserved
final path segment of a ".json" name, or the literal "tileset.json". -/
theorem determineTilesetJsonFileName_ends_json (s : String) :
    endsWithJsonCI (determineTilesetJsonFileName s) = true := by
  unfold determineTilesetJsonFileName
  cases h : endsWithJsonCI s with
  | false =>
    simp only [Bool.false_eq_true, if_false]
    decide
  | true =>
    simp only [if_true]
    have h' : endsWithJsonL s.data = true := h
    show endsWithJsonL (basenameL s.data) = true
    rw [basenameL_of_endsJson h']
    exact endsWithJsonL_afterLastSlash h'

/-! ## Helper lemmas on bounding volumes and the merger -/

/-- Containment is reflexive. -/
theorem containsBV_refl (a : BoundingVolume) : containsBV a a := by
  unfold containsBV
  omega

/-- Containment is transitive. -/
theorem containsBV_trans {a b c : BoundingVolume} (h1 : containsBV a b)
    (h2 : containsBV b c) : containsBV a c := by
  unfold containsBV at h1 h2 ⊢
  omega

/-- The union of two boxes contains the first. -/
theorem containsBV_unionBV_left (a b : BoundingVolume) :
    containsBV (unionBV a b) a := by
  unfold containsBV unionBV
  refine ⟨min_le_left _ _, min_le_left _ _, min_le_left _ _,
    le_max_left _ _, le_max_left _ _, le_max_left _ _⟩

/-- The union of two boxes contains the second. -/
theorem containsBV_unionBV_right (a b : BoundingVolume) :
    containsBV (unionBV a b) b := by
  unfold containsBV unionBV
  refine ⟨min_le_right _ _, min_le_right _ _, min_le_right _ _,
    le_max_right _ _, le_max_right _ _, le_max_right _ _⟩

/-- The iterated union contains its accumulator. -/
theorem unionAllBV_contains_acc (bs : List BoundingVolume) :
    ∀ acc, containsBV (unionAllBV acc bs) acc := by
  induction bs with
  | nil => exact fun acc => containsBV_refl acc
  | cons b bs ih =>
    intro acc
    exact containsBV_trans (ih (unionBV acc b)) (containsBV_unionBV_left acc b)

/-- The iterated union contains every listed box. -/
theorem unionAllBV_contains_mem (bs : List BoundingVolume) :
    ∀ acc, ∀ b ∈ bs, containsBV (unionAllBV acc bs) b := by
  induction bs with
  | nil => intro acc b hb; simp at hb
  | cons x bs ih =>
    intro acc b hb
    rcases List.mem_cons.mp hb with rfl | hb'
    · exact containsBV_trans (unionAllBV_contains_acc bs (unionBV acc b))
        (containsBV_unionBV_right acc b)
    · exact ih (unionBV acc x) b hb'

/-- Round trip between child lists and plain lists. -/
theorem TileList.toList_ofList (l : List Tile) :
    (TileList.ofList l).toList = l := by
  induction l with
  | nil => rfl
  | cons t ts ih => simp [TileList.ofList, TileList.toList, ih]

/-- The merge root receives one child per source. -/
theorem mergeRootChildren_length (docs : List Tileset) :
    (mergeRootChildren docs).length = docs.length := by
  unfold mergeRootChildren
  rw [List.length_map, List.enum_length]

/-! ## Claim theorems for the operations (C4, C5, C8) -/

/-- C4: with an existing target and `overwrite = false`, each of
`combine`, `merge` and `upgrade` fails with a typed `TilesetError` and
returns the store unchanged, so the existing target is not mutated. -/
theorem overwrite_guard (fs : FS) (src tgt : String) (srcNames : List String)
    (v : String) (opts : Option GltfUpgradeOptions)
    (h : (fsLookup fs tgt).isSome = true) :
    (∃ e, Tilesets.combine fs src tgt false = (.error e, fs)) ∧
    (∃ e, Tilesets.merge fs srcNames tgt false = (.error e, fs)) ∧
    (∃ e, (Tilesets.upgrade fs src tgt false v opts).1 = (.error e, fs)) := by
  refine ⟨?_, ?_, ?_⟩
  · unfold Tilesets.combine TilesetCombiner.combine
    cases hsrc : fsLookup fs src with
    | none => exact ⟨.tilesetError, by simp [hsrc]⟩
    | some pkg => exact ⟨.targetExists, by simp [hsrc, h]⟩
  · unfold Tilesets.merge TilesetMerger.merge
    cases hsrc : srcNames.mapM (fsLookup fs) with
    | none => exact ⟨.tilesetError, by simp [hsrc]⟩
    | some pkgs => exact ⟨.targetExists, by simp [hsrc, h]⟩
  · unfold Tilesets.upgrade TilesetUpgrader.upgrade
    cases hsrc : fsLookup fs src with
    | none => exact ⟨.tilesetError, by simp [hsrc]⟩
    | some pkg => exact ⟨.targetExists, by simp [hsrc, h]⟩

/-- C4 witness at a concrete store whose target name exists. -/
theorem overwrite_guard_witness :
    (fsLookup sampleFS "existing").isSome = true ∧
    ((∃ e, Tilesets.combine sampleFS "src" "existing" false = (.error e, sampleFS)) ∧
     (∃ e, Tilesets.merge sampleFS ["src"] "existing" false = (.error e, sampleFS)) ∧
     (∃ e, (Tilesets.upgrade sampleFS "src" "existing" false "1.1" none).1 =
        (.error e, sampleFS))) :=
  ⟨by decide, overwrite_guard sampleFS "src" "existing" ["src"] "1.1" none (by decide)⟩

/-- C5: for every non-empty source list, the merged document exists, its
root has exactly one child per source (also for a single source), and the
merged root's bounding volume contains every source root's bounding
volume. -/
theorem merge_cardinality_and_containment (docs : List Tileset)
    (h : docs ≠ []) :
    ∃ m, mergeDocuments docs = .ok m ∧
      m.root.children.length = docs.length ∧
      ∀ d ∈ docs, containsBV m.root.boundingVolume d.root.boundingVolume := by
  match docs, h with
  | d :: ds, _ =>
    refine ⟨_, rfl, ?_, ?_⟩
    · show (TileList.ofList (mergeRootChildren (d :: ds))).length = (d :: ds).length
      unfold TileList.length
      rw [TileList.toList_ofList, mergeRootChildren_length]
    · intro x hx
      show containsBV
        (unionAllBV d.root.boundingVolume (ds.map (fun t => t.root.boundingVolume)))
        x.root.boundingVolume
      rcases List.mem_cons.mp hx with rfl | hx'
      · exact unionAllBV_contains_acc _ _
      · exact unionAllBV_contains_mem _ _ _
          (List.mem_map.mpr ⟨x, hx', rfl⟩)

/-- C5 witness: a concrete two-source merge. -/
theorem merge_cardinality_and_containment_witness :
    ([sampleTileset11, sampleTileset11b] ≠ ([] : List Tileset)) ∧
    (∃ m, mergeDocuments [sampleTileset11, sampleTileset11b] = .ok m ∧
      m.root.children.length = [sampleTileset11, sampleTileset11b].length ∧
      ∀ d ∈ [sampleTileset11, sampleTileset11b],
        containsBV m.root.boundingVolume d.root.boundingVolume) :=
  ⟨by simp, merge_cardinality_and_containment [sampleTileset11, sampleTileset11b]
    (by simp)⟩

/-- C8: `Tilesets.upgradeTileset` is the pure JSON-level rewrite — its
effect trace is empty (no package read or write, no content-upgrade
callback application), its result is exactly `upgradeTilesetJson`, and it
coincides with an upgrader built from ANY content-upgrade options, since
the in-memory path never consults them (the source always passes
`undefined`). -/
theorem upgradeTileset_pure_json_rewrite (t : Tileset) (v : String) :
    (Tilesets.upgradeTileset t v).2 = [] ∧
    (Tilesets.upgradeTileset t v).1 = upgradeTilesetJson v t ∧
    ∀ opts : Option GltfUpgradeOptions,
      (TilesetUpgrader.mk v opts).upgradeTileset t = Tilesets.upgradeTileset t v :=
  ⟨rfl, rfl, fun _ => rfl⟩

/-! ## Helper lemmas on the downgrade rewrite (C6, C7) -/

/-- Every error the downgrade rewrite produces is the unsupported
downgrade error. -/
theorem downgradeTile_err_shape :
    ∀ t : Tile, ∀ e, downgradeTile t = .error e → e = .unsupportedDowngrade := by
  refine @Tile.rec
    (fun t => ∀ e, downgradeTile t = .error e → e = .unsupportedDowngrade)
    (fun ts => ∀ e, downgradeTiles ts = .error e → e = .unsupportedDowngrade)
    ?_ ?_ ?_
  · intro bv ge rf c cs ch ihch e h
    rcases cs with _ | ⟨_ | ⟨x, _ | ⟨y, l⟩⟩⟩
    · simp only [downgradeTile] at h
      cases hch : downgradeTiles ch with
      | error e' =>
        rw [hch] at h
        simp at h
        rw [← h]
        exact ihch e' hch
      | ok ch' =>
        rw [hch] at h
        simp at h
    · simp only [downgradeTile] at h
      cases hch : downgradeTiles ch with
      | error e' =>
        rw [hch] at h
        simp at h
        rw [← h]
        exact ihch e' hch
      | ok ch' =>
        rw [hch] at h
        simp at h
    · simp only [downgradeTile] at h
      cases hch : downgradeTiles ch with
      | error e' =>
        rw [hch] at h
        simp at h
        rw [← h]
        exact ihch e' hch
      | ok ch' =>
        rw [hch] at h
        simp at h
    · simp only [downgradeTile] at h
      simp at h
      exact h.symm
  · intro e h
    simp [downgradeTiles] at h
  · intro t ts iht ihts e h
    simp only [downgradeTiles] at h
    cases hdt : downgradeTile t with
    | error e' =>
      rw [hdt] at h
      simp at h
      rw [← h]
      exact iht e' hdt
    | ok t' =>
      rw [hdt] at h
      cases hts : downgradeTiles ts with
      | error e' =>
        rw [hts] at h
        simp at h
        rw [← h]
        exact ihts e' hts
      | ok ts' =>
        rw [hts] at h
        simp at h

/-- A subtree containing a tile with more than one `contents` entry makes
the downgrade rewrite fail with the unsupported downgrade error. -/
theorem downgradeTile_of_multi :
    ∀ t : Tile, (∃ d ∈ allTilesT t, 1 < ((Tile.contents d).getD []).length) →
      downgradeTile t = .error .unsupportedDowngrade := by
  refine @Tile.rec
    (fun t => (∃ d ∈ allTilesT t, 1 < ((Tile.contents d).getD []).length) →
      downgradeTile t = .error .unsupportedDowngrade)
    (fun ts => (∃ d ∈ allTilesL ts, 1 < ((Tile.contents d).getD []).length) →
      downgradeTiles ts = .error .unsupportedDowngrade)
    ?_ ?_ ?_
  · rintro bv ge rf c cs ch ihch ⟨d, hd, hlen⟩
    simp only [allTilesT] at hd
    rcases List.mem_cons.mp hd with rfl | hmem
    · simp only [Tile.contents] at hlen
      rcases cs with _ | ⟨_ | ⟨x, _ | ⟨y, l⟩⟩⟩
      · simp at hlen
      · simp at hlen
      · simp at hlen
      · simp [downgradeTile]
    · have herr := ihch ⟨d, hmem, hlen⟩
      rcases cs with _ | ⟨_ | ⟨x, _ | ⟨y, l⟩⟩⟩
      · simp [downgradeTile, herr]
      · simp [downgradeTile, herr]
      · simp [downgradeTile, herr]
      · simp [downgradeTile]
  · rintro ⟨d, hd, _⟩
    simp [allTilesL] at hd
  · rintro t ts iht ihts ⟨d, hd, hlen⟩
    simp only [allTilesL] at hd
    rcases List.mem_append.mp hd with hm | hm
    · have herr := iht ⟨d, hm, hlen⟩
      simp [downgradeTiles, herr]
    · have herr := ihts ⟨d, hm, hlen⟩
      cases hdt : downgradeTile t with
      | error e =>
        have he := downgradeTile_err_shape t e hdt
        simp [downgradeTiles, hdt, he]
      | ok t' =>
        simp [downgradeTiles, hdt, herr]

/-- On a tile valid at 1.1 the downgrade rewrite succeeds and promoting
the result back yields an equivalent tile. -/
theorem downgrade_promote_equiv :
    ∀ t : Tile, validTile11 t = true →
      ∃ t', downgradeTile t = .ok t' ∧ tileEquiv (promoteTile t') t = true := by
  refine @Tile.rec
    (fun t => validTile11 t = true →
      ∃ t', downgradeTile t = .ok t' ∧ tileEquiv (promoteTile t') t = true)
    (fun ts => validTiles11 ts = true →
      ∃ ts', downgradeTiles ts = .ok ts' ∧
        tileListEquiv (promoteTiles ts') ts = true)
    ?_ ?_ ?_
  · intro bv ge rf c cs ch ihch hv
    simp only [validTile11, Bool.and_eq_true] at hv
    obtain ⟨⟨⟨hrf, hc⟩, hlen⟩, hch⟩ := hv
    obtain ⟨ch', hch', hcheq⟩ := ihch hch
    have hrf' : rf.map upperStr = rf := by
      simp only [Bool.or_eq_true, beq_iff_eq] at hrf
      rcases hrf with (h | h) | h <;> rw [h] <;> decide
    rcases cs with _ | ⟨_ | ⟨x, _ | ⟨y, l⟩⟩⟩
    · refine ⟨.mk bv ge rf c none ch', by simp [downgradeTile, hch'], ?_⟩
      rcases c with _ | cv
      · simp [promoteTile, tileEquiv, hrf', hcheq, contentRefsOfParts]
      · simp [promoteTile, tileEquiv, hrf', hcheq, contentRefsOfParts]
    · have hcn : c = none := by
        rcases c with _ | cv
        · rfl
        · simp at hc
      subst hcn
      refine ⟨.mk bv ge rf none none ch', by simp [downgradeTile, hch'], ?_⟩
      simp [promoteTile, tileEquiv, hrf', hcheq, contentRefsOfParts]
    · have hcn : c = none := by
        rcases c with _ | cv
        · rfl
        · simp at hc
      subst hcn
      refine ⟨.mk bv ge rf (some x) none ch', by simp [downgradeTile, hch'], ?_⟩
      simp [promoteTile, tileEquiv, hrf', hcheq, contentRefsOfParts]
    · simp at hlen
  · intro _hv
    exact ⟨.nil, rfl, rfl⟩
  · intro t ts iht ihts hv
    simp only [validTiles11, Bool.and_eq_true] at hv
    obtain ⟨t', ht', hteq⟩ := iht hv.1
    obtain ⟨ts', hts', htseq⟩ := ihts hv.2
    refine ⟨.cons t' ts', ?_, ?_⟩
    · simp [downgradeTiles, ht', hts']
    · simp [promoteTiles, tileListEquiv, hteq, htseq]

/-! ## Claim theorems for the upgrader rewrites (C6, C7) -/

/-- C6: a version-1.1 document containing a tile with more than one
`contents` entry makes the upgrade to target version "1.0" fail with the
unsupported downgrade error — entries are never silently dropped. -/
theorem upgrade_rejects_downgrade_of_multi (t : Tileset)
    (h1 : t.asset.version = "1.1")
    (h2 : ∃ d ∈ allTilesT t.root, 1 < ((Tile.contents d).getD []).length) :
    upgradeTilesetJson "1.0" t = .error .unsupportedDowngrade ∧
    (Tilesets.upgradeTileset t "1.0").1 = .error .unsupportedDowngrade := by
  have hroot := downgradeTile_of_multi t.root h2
  have hcore : upgradeTilesetJson "1.0" t = .error .unsupportedDowngrade := by
    unfold upgradeTilesetJson
    rw [h1]
    rw [if_neg (by decide : ¬("1.1" : String) = "1.0")]
    rw [if_pos (rfl : ("1.1" : String) = "1.1")]
    rw [if_neg (by decide : ¬("1.0" : String) = "1.1")]
    rw [if_pos (rfl : ("1.0" : String) = "1.0")]
    unfold downgradeTileset
    rw [hroot]
  exact ⟨hcore,
    by simp [Tilesets.upgradeTileset, TilesetUpgrader.upgradeTileset, hcore]⟩

/-- C6 witness: a concrete 1.1 document with a two-entry `contents`
array. -/
theorem upgrade_rejects_downgrade_of_multi_witness :
    (sampleTilesetMulti.asset.version = "1.1") ∧
    (∃ d ∈ allTilesT sampleTilesetMulti.root,
      1 < ((Tile.contents d).getD []).length) ∧
    (upgradeTilesetJson "1.0" sampleTilesetMulti = .error .unsupportedDowngrade ∧
     (Tilesets.upgradeTileset sampleTilesetMulti "1.0").1 =
       .error .unsupportedDowngrade) :=
  ⟨rfl, by decide,
    upgrade_rejects_downgrade_of_multi sampleTilesetMulti rfl (by decide)⟩

/-- C7: a document valid at 1.1 with at most one `contents` entry per
tile, downgraded to "1.0" and upgraded back to "1.1", yields a document
equivalent to the original — same tiles, bounding volumes and content
references, differing at most in `asset.version`. -/
theorem upgrade_roundtrip_equiv (t : Tileset)
    (h1 : t.asset.version = "1.1") (h2 : validTile11 t.root = true) :
    ∃ t' t'', upgradeTilesetJson "1.0" t = .ok t' ∧
      upgradeTilesetJson "1.1" t' = .ok t'' ∧ tilesetEquiv t'' t = true := by
  obtain ⟨r', hr', heq⟩ := downgrade_promote_equiv t.root h2
  refine ⟨⟨⟨"1.0"⟩, t.geometricError, r'⟩,
    ⟨⟨"1.1"⟩, t.geometricError, promoteTile r'⟩, ?_, ?_, ?_⟩
  · unfold upgradeTilesetJson
    rw [h1]
    rw [if_neg (by decide : ¬("1.1" : String) = "1.0")]
    rw [if_pos (rfl : ("1.1" : String) = "1.1")]
    rw [if_neg (by decide : ¬("1.0" : String) = "1.1")]
    rw [if_pos (rfl : ("1.0" : String) = "1.0")]
    unfold downgradeTileset
    rw [hr']
  · simp [upgradeTilesetJson, promoteTileset]
  · unfold tilesetEquiv
    simp [heq]

/-- C7 witness: a concrete document valid at 1.1. -/
theorem upgrade_roundtrip_equiv_witness :
    (sampleTileset11.asset.version = "1.1") ∧
    (validTile11 sampleTileset11.root = true) ∧
    (∃ t' t'', upgradeTilesetJson "1.0" sampleTileset11 = .ok t' ∧
      upgradeTilesetJson "1.1" t' = .ok t'' ∧
      tilesetEquiv t'' sampleTileset11 = true) :=
  ⟨rfl, by decide, upgrade_roundtrip_equiv sampleTileset11 rfl (by decide)⟩

